import Mathlib

/-!
Verification of the conversational-memory subsystem of the
SmartMem-Purple-Agent repository (`src/purple_agent/memory/`).

The Python sources are shallowly embedded as executable Lean functions:

* `schema.py`    : `ToolInteraction`, `MemoryItem`, `MemoryItem.to_openai_messages`.
* `base.py`      : the `BaseMemory.add`/`get_chat_messages` skeleton is inlined
                   into each policy (Python inheritance flattened).
* `fifo.py`      : `FIFOMemory`.
* `lru.py`       : `LRUMemory`.
* `semantic.py`  : `SemanticMemory`.

Modelling conventions, shared by the whole file:

* Python `int` is `Int`; the nonnegative capacity parameters `max_tokens`,
  `max_items`, `recent_window`, `semantic_top_k` are `Nat`.
* `datetime` values are `Nat` (only ordering and equality are used;
  `datetime.min` is `0`).  Calls of `datetime.now()` inside a method become an
  explicit `now : Nat` argument of the embedded function.
* `random`-generated ids become explicit `String` arguments.
* Python `dict` is an association list `List (String × α)` with
  insertion-order update, lookup and deletion (`dictSet`/`dictGet`/`dictDel`).
* `collections.Counter` over tokens is represented by the raw token list
  itself: the count of a term is `List.count`; a term is a key iff its count
  is nonzero.  The counters built by `semantic.py` never hold an explicit
  zero entry (they are only ever incremented), so this is faithful.
* Python `float` scores are `ℚ` (exact arithmetic; the scoring formula uses
  only `+`, `*`, `/` on nonnegative values).
* `ToolInteraction.tool_input` (Python `Union[str, dict]`) is modelled as the
  string the projection serialises it to (`json.dumps` for the dict case);
  no claim inspects the serialised text itself.
* The three `while` eviction loops are embedded with an explicit fuel equal
  to the current storage length: every iteration of each loop removes exactly
  one stored item and requires the storage to be non-empty (FIFO/LRU) or
  longer than the recency window (Semantic), so `storage.length` iterations
  always suffice and the fuelled function computes exactly the loop's result.
-/

/-- Python `x or 0` applied to an `Optional[int]`: `None` and `0` give `0`,
any other value gives itself.  (Pointwise equal to `Option.getD · 0`.) -/
def pyOrZero (x : Option Int) : Int :=
  match x with
  | none => 0
  | some c => if c = 0 then 0 else c

/-- Python `str.capitalize()`: first character upper-cased, the rest
lower-cased. -/
def pyCapitalize (s : String) : String :=
  match s.data with
  | [] => ""
  | c :: cs => String.mk (c.toUpper :: cs.map Char.toLower)

/-- Python `a or b` for `a : Optional[str]`: `None` and `""` are falsy. -/
def pyStrOr (a b : Option String) : Option String :=
  match a with
  | none => b
  | some s => if s = "" then b else some s

/-- Python slice `lst[-w:]`.  For `w = 0` this is the whole list
(`lst[-0:] = lst[0:]`); for `w > 0` it is the last `min w len` elements. -/
def pySliceLast (w : Nat) (xs : List α) : List α :=
  if w = 0 then xs else xs.drop (xs.length - w)

/-- Python slice `lst[:-w]`.  For `w = 0` this is the empty list
(`lst[:-0] = lst[:0]`); for `w > 0` it is all but the last `w` elements. -/
def pySliceDropLast (w : Nat) (xs : List α) : List α :=
  if w = 0 then [] else xs.take (xs.length - w)

/-- Python dict lookup `d.get(k, dflt)`. -/
def dictGet (d : List (String × α)) (k : String) (dflt : α) : α :=
  match d.find? (fun kv => kv.1 == k) with
  | some kv => kv.2
  | none => dflt

/-- Python dict assignment `d[k] = v`: overwrite in place if the key exists,
otherwise append (dicts preserve insertion order). -/
def dictSet (d : List (String × α)) (k : String) (v : α) : List (String × α) :=
  if d.any (fun kv => kv.1 == k) then
    d.map (fun kv => if kv.1 == k then (k, v) else kv)
  else d ++ [(k, v)]

/-- Python dict deletion `del d[k]` (no-op when the key is absent, which the
sources guard with `if k in d`). -/
def dictDel (d : List (String × α)) (k : String) : List (String × α) :=
  d.filter (fun kv => !(kv.1 == k))

/-- `schema.py` line 18: one tool invocation inside a turn. -/
structure ToolInteraction where
  tool_name : String
  tool_id : String
  tool_input : String
  tool_output : String
deriving DecidableEq, Repr

/-- `schema.py` line 24: `"[Call: name(input)] -> [Result: output]"`. -/
def ToolInteraction.to_string (t : ToolInteraction) : String :=
  "[Call: " ++ t.tool_name ++ "(" ++ t.tool_input ++ ")] -> [Result: " ++
    t.tool_output ++ "]"

/-- `schema.py` line 27: one stored unit of conversation history. -/
structure MemoryItem where
  id : String
  timestamp : Nat
  role : String
  content : Option String := none
  tool_chain : List ToolInteraction := []
  raw_data : Option String := none
  token_count : Option Int := none
deriving DecidableEq, Repr

/-- `schema.py` line 43 `get_display_content`: the tool-chain lines followed
by the body text (skipped when `None` or empty, Python truthiness), joined
with newlines. -/
def MemoryItem.get_display_content (item : MemoryItem) : String :=
  let parts := item.tool_chain.map ToolInteraction.to_string
  let parts := match item.content with
    | some c => if c = "" then parts else parts ++ [c]
    | none => parts
  String.intercalate "\n" parts

/-- One call descriptor inside an assistant message's `tool_calls` list. -/
structure ToolCall where
  id : String
  name : String
  arguments : String
deriving DecidableEq, Repr

/-- The three shapes of flat chat message built by `to_openai_messages`:
a plain `{role, content}` message, an assistant message carrying call
descriptors, and a tool-result message carrying a correlation id. -/
inductive ChatMessage where
  | plain (role : String) (content : Option String)
  | assistantCalls (content : Option String) (tool_calls : List ToolCall)
  | toolResult (tool_call_id : String) (content : String)
deriving DecidableEq, Repr

/-- The correlation id carried by a tool-result message, if any. -/
def ChatMessage.resultCallId : ChatMessage → Option String
  | .toolResult tid _ => some tid
  | _ => none

/-- `schema.py` line 55 `to_openai_messages`: an empty tool chain yields the
single `{role, content}` message; otherwise one assistant message holding all
call descriptors (in chain order) followed by one tool message per
interaction (same order). -/
def MemoryItem.to_openai_messages (item : MemoryItem) : List ChatMessage :=
  if item.tool_chain = [] then
    [ChatMessage.plain item.role item.content]
  else
    ChatMessage.assistantCalls item.content
      (item.tool_chain.map fun t => ToolCall.mk t.tool_id t.tool_name t.tool_input)
    :: item.tool_chain.map (fun t => ChatMessage.toolResult t.tool_id t.tool_output)

/-- `fifo.py` line 26 / `lru.py` line 43 / `semantic.py` line 55: the default
token estimator `lambda s: len(s) // 4`. -/
def defaultTokenCounter (s : String) : Int :=
  ((s.length / 4 : Nat) : Int)

/-- The `"Role: content\n"` line `get_prompt_context` appends per item. -/
def promptLine (item : MemoryItem) : String :=
  pyCapitalize item.role ++ ": " ++ item.get_display_content ++ "\n"

/-- `fifo.py` line 6 `FIFOMemory`: ordered storage, running token total,
capacities, optional system prompt, token estimator. -/
structure FIFOMemory where
  storage : List MemoryItem
  max_tokens : Nat
  max_items : Nat
  current_total_tokens : Int
  system_prompt : Option MemoryItem
  token_counter : String → Int

/-- `fifo.py` line 7 `__init__` with an explicit estimator. -/
def FIFOMemory.init (max_tokens max_items : Nat)
    (token_counter : String → Int) : FIFOMemory :=
  { storage := [], max_tokens := max_tokens, max_items := max_items,
    current_total_tokens := 0, system_prompt := none,
    token_counter := token_counter }

/-- `fifo.py` line 28 `set_system_prompt`; the generated id and timestamp of
the fresh `MemoryItem` are explicit environment inputs. -/
def FIFOMemory.set_system_prompt (m : FIFOMemory) (content : String)
    (genId : String) (genTs : Nat) : FIFOMemory :=
  let sp : MemoryItem :=
    { id := genId, timestamp := genTs, role := "system", content := some content }
  { m with system_prompt := some sp }

/-- `fifo.py` line 31 `_add_to_storage`: estimate and cache the token count
when unset (`get_display_content() or ""` is the identity, since
`get_display_content` already returns a string), append, update the total. -/
def FIFOMemory.add_to_storage (m : FIFOMemory) (item : MemoryItem) : FIFOMemory :=
  let count := match item.token_count with
    | none => m.token_counter item.get_display_content
    | some c => c
  let item' := match item.token_count with
    | none => { item with token_count := some count }
    | some _ => item
  { m with storage := m.storage ++ [item'],
           current_total_tokens := m.current_total_tokens + count }

/-- `fifo.py` line 43 `_manage_memory_constraints`, fuelled: while the token
total or the item count exceeds its budget and storage is non-empty, pop the
oldest item and subtract its cached count (`token_count or 0`). -/
def FIFOMemory.manageAux : Nat → FIFOMemory → FIFOMemory
  | 0, m => m
  | fuel + 1, m =>
    if m.current_total_tokens > (m.max_tokens : Int) ∨
        m.storage.length > m.max_items then
      match m.storage with
      | [] => m
      | removed :: rest =>
        FIFOMemory.manageAux fuel
          { m with storage := rest,
                   current_total_tokens :=
                     m.current_total_tokens - pyOrZero removed.token_count }
    else m

/-- The loop of `fifo.py` line 43 runs at most `storage.length` times. -/
def FIFOMemory.manage_memory_constraints (m : FIFOMemory) : FIFOMemory :=
  FIFOMemory.manageAux m.storage.length m

/-- `base.py` line 15 `add` as inherited by `FIFOMemory`: append, then
enforce constraints. -/
def FIFOMemory.add (m : FIFOMemory) (item : MemoryItem) : FIFOMemory :=
  (m.add_to_storage item).manage_memory_constraints

/-- `fifo.py` line 59 `retrieve`: ignores `query` and `top_k`.  The source
builds a local `memories = [self.system_prompt] + self.storage` and then
returns `self.storage`, so the local is dead code; the embedding returns
what the source returns. -/
def FIFOMemory.retrieve (m : FIFOMemory) (query : Option String)
    (top_k : Nat) : List MemoryItem :=
  m.storage

/-- `base.py` line 25 `get_chat_messages` as inherited by `FIFOMemory`
(`fifo.py` does not override it): the projections of `retrieve()`'s items,
extended into one flat list.  No system prompt is prepended here. -/
def FIFOMemory.get_chat_messages (m : FIFOMemory) : List ChatMessage :=
  (m.retrieve none 5).foldl (fun acc item => acc ++ item.to_openai_messages) []

/-- `fifo.py` line 67 `get_prompt_context`: one `"Role: content\n"` line per
retrieved item, accumulated onto the empty string. -/
def FIFOMemory.get_prompt_context (m : FIFOMemory) (query : Option String) : String :=
  (m.retrieve none 5).foldl (fun acc item => acc ++ promptLine item) ""

/-- `lru.py` line 20 `LRUMemory`: FIFO state plus the id-indexed
last-access-time map. -/
structure LRUMemory where
  storage : List MemoryItem
  max_tokens : Nat
  max_items : Nat
  current_total_tokens : Int
  system_prompt : Option MemoryItem
  access_times : List (String × Nat)
  token_counter : String → Int

/-- `lru.py` line 21 `__init__` with an explicit estimator. -/
def LRUMemory.init (max_tokens max_items : Nat)
    (token_counter : String → Int) : LRUMemory :=
  { storage := [], max_tokens := max_tokens, max_items := max_items,
    current_total_tokens := 0, system_prompt := none, access_times := [],
    token_counter := token_counter }

/-- `lru.py` line 48 `_add_to_storage`: as FIFO, and additionally record the
append time (`datetime.now()`, passed as `now`) for the item's id. -/
def LRUMemory.add_to_storage (m : LRUMemory) (item : MemoryItem) (now : Nat) :
    LRUMemory :=
  let count := match item.token_count with
    | none => m.token_counter item.get_display_content
    | some c => c
  let item' := match item.token_count with
    | none => { item with token_count := some count }
    | some _ => item
  { m with storage := m.storage ++ [item'],
           current_total_tokens := m.current_total_tokens + count,
           access_times := dictSet m.access_times item'.id now }

/-- Python `min(xs, key=...)` for `xs = x :: rest`: the first element
attaining the minimal key (`min` keeps the current best on ties). -/
def pyMinBy (key : α → Nat) (x : α) (xs : List α) : α :=
  xs.foldl (fun best y => if key y < key best then y else best) x

/-- `lru.py` line 70: the least-recently-used item — the first stored item
whose access time (`access_times.get(id, datetime.min)`, i.e. default `0`)
is minimal. -/
def LRUMemory.lruVictim (m : LRUMemory) : Option MemoryItem :=
  match m.storage with
  | [] => none
  | x :: xs => some (pyMinBy (fun it => dictGet m.access_times it.id 0) x xs)

/-- One iteration of the loop in `lru.py` line 62: remove the LRU item
(`storage.remove` drops the first structurally equal element), subtract its
cached tokens (`token_count or 0`), delete its access-time entry. -/
def LRUMemory.evictStep (m : LRUMemory) : LRUMemory :=
  match m.lruVictim with
  | none => m
  | some v =>
    { m with storage := m.storage.erase v,
             current_total_tokens :=
               m.current_total_tokens - pyOrZero v.token_count,
             access_times := dictDel m.access_times v.id }

/-- The state produced by one LRU eviction of the item `v`: used to state
equations about `evictStep`. -/
def lruErasedState (m : LRUMemory) (v : MemoryItem) : LRUMemory :=
  { m with storage := m.storage.erase v,
           current_total_tokens := m.current_total_tokens - pyOrZero v.token_count,
           access_times := dictDel m.access_times v.id }

/-- `lru.py` line 62 `_manage_memory_constraints`, fuelled: while over budget
and storage is non-empty, evict the LRU item. -/
def LRUMemory.manageAux : Nat → LRUMemory → LRUMemory
  | 0, m => m
  | fuel + 1, m =>
    if (m.current_total_tokens > (m.max_tokens : Int) ∨
        m.storage.length > m.max_items) ∧ m.storage ≠ [] then
      LRUMemory.manageAux fuel m.evictStep
    else m

/-- The loop of `lru.py` line 62 runs at most `storage.length` times. -/
def LRUMemory.manage_memory_constraints (m : LRUMemory) : LRUMemory :=
  LRUMemory.manageAux m.storage.length m

/-- `base.py` line 15 `add` as inherited by `LRUMemory`. -/
def LRUMemory.add (m : LRUMemory) (item : MemoryItem) (now : Nat) : LRUMemory :=
  (m.add_to_storage item now).manage_memory_constraints

/-- `lru.py` line 86 `retrieve`: refresh the access time of every stored
item to the current time, then return the whole storage. -/
def LRUMemory.retrieve (m : LRUMemory) (query : Option String) (top_k : Nat)
    (now : Nat) : LRUMemory × List MemoryItem :=
  let touched := m.storage.foldl (fun d item => dictSet d item.id now) m.access_times
  let m' := { m with access_times := touched }
  (m', m'.storage)

/-- `lru.py` line 98 `get_chat_messages` (override): the system prompt's
projection, if present, followed by the projections of the retrieved items. -/
def LRUMemory.get_chat_messages (m : LRUMemory) (now : Nat) :
    LRUMemory × List ChatMessage :=
  let r := m.retrieve none 5 now
  let base := match m.system_prompt with
    | some sp => sp.to_openai_messages
    | none => []
  (r.1, r.2.foldl (fun acc item => acc ++ item.to_openai_messages) base)

/-- `lru.py` line 113 `get_prompt_context`: returns `None` when there are no
items (`if not items: return None`), otherwise the accumulated
`"Role: content\n"` lines. -/
def LRUMemory.get_prompt_context (m : LRUMemory) (query : Option String)
    (now : Nat) : LRUMemory × Option String :=
  let r := m.retrieve none 5 now
  if r.2 = [] then (r.1, none)
  else (r.1, some (r.2.foldl (fun acc item => acc ++ promptLine item) ""))

/-- ASCII word character for the regex class `\w` (`[a-zA-Z0-9_]`); the texts
handled by the claims are ASCII. -/
def isWordChar (c : Char) : Bool :=
  c.isAlphanum || c == '_'

/-- Scanner for `re.findall(r'\b[a-zA-Z]+\b', text)`: maximal alphabetic runs
whose neighbours (if any) are non-word characters.  `leftOk` records whether
the current run's left boundary is a word boundary; the end of input is
always a boundary. -/
def findWordsAux : Bool → List Char → List Char → List (List Char)
  | leftOk, run, [] =>
    if run ≠ [] ∧ leftOk then [run.reverse] else []
  | leftOk, run, c :: cs =>
    if c.isAlpha then
      findWordsAux leftOk (c :: run) cs
    else
      (if run ≠ [] ∧ leftOk ∧ ¬ isWordChar c then [run.reverse] else []) ++
        findWordsAux (¬ isWordChar c) [] cs

/-- `semantic.py` line 63 `_tokenize`: lower-case the text, extract the
`\b[a-zA-Z]+\b` matches, keep only the words longer than 2 characters. -/
def pyTokenize (text : String) : List String :=
  let words := (findWordsAux true [] (text.data.map Char.toLower)).map
    (fun cs => String.mk cs)
  words.filter (fun w => 2 < w.length)

/-- `semantic.py` line 22 `SemanticMemory`: FIFO-like state plus the recency
window size, the default result count, the per-item term-frequency cache, the
global document-frequency counter, the document count and the cached last
user query. -/
structure SemanticMemory where
  storage : List MemoryItem
  max_tokens : Nat
  max_items : Nat
  recent_window : Nat
  semantic_top_k : Nat
  current_total_tokens : Int
  system_prompt : Option MemoryItem
  tf_cache : List (String × List String)
  doc_freq : List String
  total_docs : Nat
  token_counter : String → Int
  last_query : Option String

/-- `semantic.py` line 23 `__init__` with an explicit estimator. -/
def SemanticMemory.init (max_tokens max_items recent_window semantic_top_k : Nat)
    (token_counter : String → Int) : SemanticMemory :=
  { storage := [], max_tokens := max_tokens, max_items := max_items,
    recent_window := recent_window, semantic_top_k := semantic_top_k,
    current_total_tokens := 0, system_prompt := none, tf_cache := [],
    doc_freq := [], total_docs := 0, token_counter := token_counter,
    last_query := none }

/-- `semantic.py` line 72 `_compute_tf`: the term-frequency counter of a
text, represented by its token list (see the header conventions). -/
def SemanticMemory.compute_tf (text : String) : List String :=
  pyTokenize text

/-- One loop iteration of `semantic.py` lines 100-104: the contribution
`query_tf[term] * doc_tf[term] * idf` of a shared term, with
`df = doc_freq.get(term, 1)` and `idf = 1 + total_docs / df` when `df > 0`
else `1`. -/
def SemanticMemory.simTermWeight (m : SemanticMemory)
    (query_tf doc_tf : List String) (term : String) : ℚ :=
  let dfN : Nat := List.count term m.doc_freq
  let df : Nat := if dfN = 0 then 1 else dfN
  let idf : ℚ := if 0 < df then 1 + (m.total_docs : ℚ) / (df : ℚ) else 1
  (List.count term query_tf : ℚ) * (List.count term doc_tf : ℚ) * idf

/-- `semantic.py` line 85 `_compute_similarity`: zero when either counter is
empty or no term is shared; otherwise the accumulated `simTermWeight` over
the shared terms.  The shared terms (`set(query) & set(doc)`) are listed
deterministically; `ℚ` addition is commutative, so the arbitrary Python set
order is immaterial. -/
def SemanticMemory.compute_similarity (m : SemanticMemory)
    (query_tf doc_tf : List String) : ℚ :=
  if query_tf = [] ∨ doc_tf = [] then 0
  else
    let common := query_tf.dedup.filter (fun t => doc_tf.contains t)
    if common = [] then 0
    else
      common.foldl (fun score term =>
        score + m.simTermWeight query_tf doc_tf term) 0

/-- `semantic.py` line 108 `_add_to_storage`: as FIFO, then cache the item's
term frequencies, update the document frequencies (`_update_idf`: one
increment per distinct term, i.e. append the deduplicated token list) and the
document count, and remember a non-empty user `content` as the last query. -/
def SemanticMemory.add_to_storage (m : SemanticMemory) (item : MemoryItem) :
    SemanticMemory :=
  let count := match item.token_count with
    | none => m.token_counter item.get_display_content
    | some c => c
  let item' := match item.token_count with
    | none => { item with token_count := some count }
    | some _ => item
  let tokens := SemanticMemory.compute_tf item'.get_display_content
  let lq := match item'.role == "user", item'.content with
    | true, some c => if c = "" then m.last_query else some c
    | _, _ => m.last_query
  { m with storage := m.storage ++ [item'],
           current_total_tokens := m.current_total_tokens + count,
           tf_cache := dictSet m.tf_cache item'.id tokens,
           doc_freq := m.doc_freq ++ tokens.dedup,
           total_docs := m.total_docs + 1,
           last_query := lq }

/-- `semantic.py` line 128 `_manage_memory_constraints`, fuelled: while over
budget and the stored count exceeds the recency window, pop the oldest item,
subtract its cached tokens and drop its term-frequency cache entry. -/
def SemanticMemory.manageAux : Nat → SemanticMemory → SemanticMemory
  | 0, m => m
  | fuel + 1, m =>
    if (m.current_total_tokens > (m.max_tokens : Int) ∨
        m.storage.length > m.max_items) ∧
        m.storage.length > m.recent_window then
      match m.storage with
      | [] => m
      | removed :: rest =>
        SemanticMemory.manageAux fuel
          { m with storage := rest,
                   current_total_tokens :=
                     m.current_total_tokens - pyOrZero removed.token_count,
                   tf_cache := dictDel m.tf_cache removed.id }
    else m

/-- The loop of `semantic.py` line 128 runs at most `storage.length` times. -/
def SemanticMemory.manage_memory_constraints (m : SemanticMemory) : SemanticMemory :=
  SemanticMemory.manageAux m.storage.length m

/-- `base.py` line 15 `add` as inherited by `SemanticMemory`. -/
def SemanticMemory.add (m : SemanticMemory) (item : MemoryItem) : SemanticMemory :=
  (m.add_to_storage item).manage_memory_constraints

/-- Stable insertion for a descending sort: `x` is placed before the first
element whose key is not strictly greater, so among equal keys earlier input
elements stay first. -/
def insertDescStable (key : α → ℚ) (x : α) : List α → List α
  | [] => [x]
  | y :: ys =>
    if key x < key y then y :: insertDescStable key x ys else x :: y :: ys

/-- Python `lst.sort(key=..., reverse=True)`: a stable descending sort. -/
def pySortDescBy (key : α → ℚ) (l : List α) : List α :=
  l.foldr (insertDescStable key) []

/-- `semantic.py` lines 176-188 of `retrieve`: score every older item against
the query counter (document counters read from the cache, `Counter()` when
missing), sort by score descending (stable), take the first `top_k`, and keep
those with strictly positive score. -/
def SemanticMemory.relevantOlder (m : SemanticMemory) (query_tf : List String)
    (older_items : List MemoryItem) (top_k : Nat) : List MemoryItem :=
  let scored := older_items.map (fun item =>
    (m.compute_similarity query_tf (dictGet m.tf_cache item.id []), item))
  let sorted := pySortDescBy (fun si => si.1) scored
  ((sorted.take top_k).filter (fun si => decide (0 < si.1))).map (fun si => si.2)

/-- `semantic.py` line 147 `retrieve`: default `top_k` is `semantic_top_k`;
the effective query is the argument or the cached last user query (Python
`or`); everything is returned when the storage fits in the recency window or
when the query is unusable or there are no older items; otherwise the
relevance-selected older items united with the recency window, kept in
original chronological order. -/
def SemanticMemory.retrieve (m : SemanticMemory) (query : Option String)
    (top_k : Option Nat) : List MemoryItem :=
  let k := match top_k with
    | none => m.semantic_top_k
    | some k => k
  let search_query := pyStrOr query m.last_query
  if m.storage.length ≤ m.recent_window then m.storage
  else
    let recent_items := pySliceLast m.recent_window m.storage
    let older_items := pySliceDropLast m.recent_window m.storage
    if (search_query = none ∨ search_query = some "") ∨ older_items = [] then
      m.storage
    else
      let query_tf := SemanticMemory.compute_tf (search_query.getD "")
      let relevant_items := m.relevantOlder query_tf older_items k
      let relevant_ids := relevant_items.map (fun it => it.id)
      m.storage.filter (fun item =>
        relevant_ids.contains item.id || recent_items.contains item)

/-- `semantic.py` line 196 `get_chat_messages` (override): the system
prompt's projection, if present, followed by the projections of the items of
`retrieve()`. -/
def SemanticMemory.get_chat_messages (m : SemanticMemory) : List ChatMessage :=
  let items := m.retrieve none none
  let base := match m.system_prompt with
    | some sp => sp.to_openai_messages
    | none => []
  items.foldl (fun acc item => acc ++ item.to_openai_messages) base

/-- `semantic.py` line 211 `get_prompt_context`: `None` when `retrieve`
returns no items, otherwise the accumulated `"Role: content\n"` lines. -/
def SemanticMemory.get_prompt_context (m : SemanticMemory)
    (query : Option String) : Option String :=
  let items := m.retrieve query none
  if items = [] then none
  else some (items.foldl (fun acc item => acc ++ promptLine item) "")

/-- The sum of the cached per-item token counts, which the running total
`current_total_tokens` is maintained to equal. -/
def sumTok (l : List MemoryItem) : Int :=
  (l.map (fun it => pyOrZero it.token_count)).sum

/-! Concrete stores and items used by the example-based theorems and by the
witnesses; each is reachable through the embedded operations. -/

/-- A display content of exactly 48 characters (estimated at 12 tokens). -/
def chars48 : String := "aaaaaaaaaaaaaaaaaaaaaaaaaaaaaaaaaaaaaaaaaaaaaaaa"

def exItemA : MemoryItem := { id := "A", timestamp := 1, role := "user", content := some chars48 }

def exItemB : MemoryItem := { id := "B", timestamp := 2, role := "user", content := some chars48 }

def exItemC : MemoryItem := { id := "C", timestamp := 3, role := "user", content := some chars48 }

def exItemD : MemoryItem := { id := "D", timestamp := 4, role := "user", content := some chars48 }

def exItemE : MemoryItem := { id := "E", timestamp := 5, role := "user", content := some chars48 }

/-- FIFO store of the §8 eviction example after the first three appends. -/
def fifoC9s3 : FIFOMemory :=
  (((FIFOMemory.init 40 5 defaultTokenCounter).add exItemA).add exItemB).add exItemC

def fifoC9s4 : FIFOMemory := fifoC9s3.add exItemD

def fifoC9s5 : FIFOMemory := fifoC9s4.add exItemE

/-- The system-prompt record held by `fifoC1state`. -/
def fifoC1prompt : MemoryItem :=
  { id := "SP", timestamp := 0, role := "system", content := some "sys" }

/-- A FIFO store with a system prompt set and one stored user turn. -/
def fifoC1state : FIFOMemory :=
  (((FIFOMemory.init 2000 100 defaultTokenCounter).set_system_prompt "sys" "SP" 0).add
    { id := "U", timestamp := 1, role := "user", content := some "hi" })

/-- An assistant turn with two pending tool interactions. -/
def c3item : MemoryItem :=
  { id := "W3", timestamp := 7, role := "assistant", content := some "use tools",
    tool_chain := [ToolInteraction.mk "dev" "id1" "a" "r1",
                   ToolInteraction.mk "dev" "id2" "b" "r2"] }

/-- Semantic store with `max_tokens = 1`, `recent_window = 2` and two stored
12-token items: the recency window alone exceeds the budget. -/
def semC4state : SemanticMemory :=
  (((SemanticMemory.init 1 100 2 5 defaultTokenCounter).add
      { id := "P", timestamp := 1, role := "user", content := some chars48 }).add
    { id := "Q", timestamp := 2, role := "user", content := some chars48 })

/-- A minimal semantic store for the similarity witness: one indexed
document containing the term `"thermostat"`. -/
def semC6state : SemanticMemory :=
  (SemanticMemory.init 2000 100 1 5 defaultTokenCounter).add
    { id := "T1", timestamp := 1, role := "user", content := some "thermostat reads high" }

def lruC7itemA : MemoryItem :=
  { id := "20240101_103005_1000", timestamp := 5, role := "user",
    content := some "first", token_count := some 3 }

def lruC7itemB : MemoryItem :=
  { id := "20240101_103005_9999", timestamp := 5, role := "user",
    content := some "second", token_count := some 3 }

/-- LRU store holding `B` then `A` (two appends inside the same wall-clock
second: `B`'s random id suffix sorts after `A`'s) with equal access times. -/
def lruC7cex : LRUMemory :=
  ((LRUMemory.init 1 100 defaultTokenCounter).add_to_storage lruC7itemB 5).add_to_storage
    lruC7itemA 5

/-- LRU store for the eviction witness: two items with distinct access times. -/
def lruC7wst : LRUMemory :=
  ((LRUMemory.init 2000 100 defaultTokenCounter).add lruC7itemB 4).add lruC7itemA 6

def c10x : MemoryItem :=
  { id := "X", timestamp := 1, role := "user", content := some "hello there friend" }

def c10y : MemoryItem :=
  { id := "Y", timestamp := 2, role := "user", content := some "general kenobi" }

/-- Semantic store with `recent_window = 0` and one stored item. -/
def semC10w0 : SemanticMemory :=
  (SemanticMemory.init 2000 100 0 5 defaultTokenCounter).add c10x

/-- Semantic store with `recent_window = 1` holding the same turn record
appended twice (`add(item); add(item)` re-appends the same object). -/
def semC10dup : SemanticMemory :=
  ((SemanticMemory.init 2000 100 1 5 defaultTokenCounter).add c10x).add c10x

/-- Semantic store with `recent_window = 1` and two distinct stored items. -/
def semC10wst : SemanticMemory :=
  ((SemanticMemory.init 2000 100 1 5 defaultTokenCounter).add c10x).add c10y

/-! Helper lemmas. -/

theorem pyOrZero_some (c : Int) : pyOrZero (some c) = c := by
  by_cases h : c = 0 <;> simp [pyOrZero, h]

theorem foldl_append_eq_flatMap (f : α → List β) :
    ∀ (l : List α) (init : List β),
      l.foldl (fun acc x => acc ++ f x) init = init ++ l.flatMap f
  | [], init => by simp
  | a :: l, init => by
    simp only [List.foldl_cons, foldl_append_eq_flatMap f l (init ++ f a),
      List.flatMap_cons, List.append_assoc]

theorem strFoldl_append :
    ∀ (l : List String) (s : String),
      l.foldl (fun r t => r ++ t) s = s ++ l.foldl (fun r t => r ++ t) ""
  | [], s => by simp
  | x :: l, s => by
    simp only [List.foldl_cons]
    rw [strFoldl_append l (s ++ x), strFoldl_append l ("" ++ x)]
    simp [String.append_assoc]

theorem strJoin_cons (x : String) (l : List String) :
    String.join (x :: l) = x ++ String.join l := by
  simp only [String.join, List.foldl_cons]
  rw [strFoldl_append l ("" ++ x)]
  simp

theorem foldl_strAppend_eq_join (f : α → String) :
    ∀ (l : List α) (init : String),
      l.foldl (fun acc x => acc ++ f x) init = init ++ String.join (l.map f)
  | [], init => by simp [String.join]
  | a :: l, init => by
    simp only [List.foldl_cons, List.map_cons, strJoin_cons,
      foldl_strAppend_eq_join f l (init ++ f a), String.append_assoc]

theorem foldl_add_eq_sum (f : α → ℚ) :
    ∀ (l : List α) (a : ℚ), l.foldl (fun s t => s + f t) a = a + (l.map f).sum
  | [], a => by simp
  | x :: l, a => by
    simp only [List.foldl_cons, foldl_add_eq_sum f l (a + f x), List.map_cons,
      List.sum_cons]
    ring

/-! Settling the claims. -/

/-- Claim C3: projecting one turn record.  An empty `tool_chain` yields
exactly the one `{role, content}` message.  A non-empty chain of `n`
interactions yields `1 + n` messages: first one assistant message carrying
`content` and one `{id, name, arguments}` call descriptor per interaction in
chain order, then exactly one tool-result message per interaction in the same
order, the `i`-th result's `tool_call_id` equalling the `i`-th descriptor's
`id`. -/
theorem claim_C3_projection (item : MemoryItem) :
    (item.tool_chain = [] →
      item.to_openai_messages = [ChatMessage.plain item.role item.content]) ∧
    (item.tool_chain ≠ [] →
      item.to_openai_messages =
        ChatMessage.assistantCalls item.content
          (item.tool_chain.map fun t => ToolCall.mk t.tool_id t.tool_name t.tool_input)
        :: item.tool_chain.map (fun t => ChatMessage.toolResult t.tool_id t.tool_output) ∧
      item.to_openai_messages.length = 1 + item.tool_chain.length ∧
      (item.to_openai_messages.drop 1).map ChatMessage.resultCallId =
        (item.tool_chain.map fun t =>
          ToolCall.mk t.tool_id t.tool_name t.tool_input).map (fun c => some c.id)) := by
  constructor
  · intro h
    simp [MemoryItem.to_openai_messages, h]
  · intro h
    refine ⟨by simp [MemoryItem.to_openai_messages, h], ?_, ?_⟩
    · simp [MemoryItem.to_openai_messages, h]
      omega
    · simp [MemoryItem.to_openai_messages, h, List.map_map]
      intro a _
      rfl

/-- Witness for C3 at a turn with two tool interactions. -/
theorem claim_C3_projection_witness :
    c3item.tool_chain ≠ [] ∧
    (c3item.to_openai_messages =
        ChatMessage.assistantCalls c3item.content
          (c3item.tool_chain.map fun t => ToolCall.mk t.tool_id t.tool_name t.tool_input)
        :: c3item.tool_chain.map (fun t => ChatMessage.toolResult t.tool_id t.tool_output) ∧
      c3item.to_openai_messages.length = 1 + c3item.tool_chain.length ∧
      (c3item.to_openai_messages.drop 1).map ChatMessage.resultCallId =
        (c3item.tool_chain.map fun t =>
          ToolCall.mk t.tool_id t.tool_name t.tool_input).map (fun c => some c.id)) :=
  ⟨by decide, (claim_C3_projection c3item).2 (by decide)⟩

/-- Claim C9: the §8 FIFO eviction example.  Five 48-character items (12
estimated tokens each) appended into `max_tokens = 40`, `max_items = 5`:
the 4th append raises the running total to 48, evicts `A` and settles at 36;
the 5th append raises it to 48 again, evicts `B` and settles at 36 with
storage `[C, D, E]`. -/
theorem claim_C9_fifo_example :
    defaultTokenCounter exItemA.get_display_content = 12 ∧
    exItemA.get_display_content.length = 48 ∧
    fifoC9s3.current_total_tokens = 36 ∧
    (fifoC9s3.add_to_storage exItemD).current_total_tokens = 48 ∧
    fifoC9s4.storage.map MemoryItem.id = ["B", "C", "D"] ∧
    fifoC9s4.current_total_tokens = 36 ∧
    (fifoC9s4.add_to_storage exItemE).current_total_tokens = 48 ∧
    fifoC9s5.storage.map MemoryItem.id = ["C", "D", "E"] ∧
    fifoC9s5.current_total_tokens = 36 := by
  decide

/-- Claim C1, settled against the code: `lru.py` and `semantic.py` override
`get_chat_messages` to prepend the stored system prompt's projection, but
`fifo.py` inherits `base.py`'s version, which never consults
`system_prompt`; on a FIFO store with a system prompt set and one stored
user turn, the output is the bare projection of the storage and differs from
the claimed prepended form. -/
theorem claim_C1_fifo_drops_system_prompt :
    (∀ (m : LRUMemory) (now : Nat),
      (m.get_chat_messages now).2 =
        (match m.system_prompt with
          | some sp => sp.to_openai_messages
          | none => []) ++
          (m.retrieve none 5 now).2.flatMap MemoryItem.to_openai_messages) ∧
    (∀ m : SemanticMemory,
      m.get_chat_messages =
        (match m.system_prompt with
          | some sp => sp.to_openai_messages
          | none => []) ++
          (m.retrieve none none).flatMap MemoryItem.to_openai_messages) ∧
    fifoC1state.system_prompt = some fifoC1prompt ∧
    fifoC1state.get_chat_messages = [ChatMessage.plain "user" (some "hi")] ∧
    fifoC1state.get_chat_messages ≠
      fifoC1prompt.to_openai_messages ++
        (fifoC1state.retrieve none 5).flatMap MemoryItem.to_openai_messages := by
  refine ⟨?_, ?_, by decide, by decide, by decide⟩
  · intro m now
    simp [LRUMemory.get_chat_messages, foldl_append_eq_flatMap]
  · intro m
    simp [SemanticMemory.get_chat_messages, foldl_append_eq_flatMap]

/-- Claim C5: for every policy, every store state and all arguments,
`retrieve`'s output is a sublist (subsequence) of the stored item list:
every returned item is stored, occurrence counts are not exceeded, and
relative order equals storage order. -/
theorem claim_C5_retrieve_subsequence :
    (∀ (m : FIFOMemory) (q : Option String) (k : Nat),
      (m.retrieve q k).Sublist m.storage) ∧
    (∀ (m : LRUMemory) (q : Option String) (k now : Nat),
      (m.retrieve q k now).2.Sublist m.storage) ∧
    (∀ (m : SemanticMemory) (q : Option String) (k : Option Nat),
      (m.retrieve q k).Sublist m.storage) := by
  refine ⟨fun m q k => List.Sublist.refl _, fun m q k now => List.Sublist.refl _, ?_⟩
  intro m q k
  simp only [SemanticMemory.retrieve]
  split
  · exact List.Sublist.refl _
  · split
    · exact List.Sublist.refl _
    · exact List.filter_sublist _

/-- Counterexample to claim C8 as stated: on an empty LRU or Semantic store,
`get_prompt_context` returns `None` (`if not items: return None`), not a
string. -/
theorem claim_C8_counterexample :
    ((LRUMemory.init 2000 100 defaultTokenCounter).get_prompt_context none 0).2 = none ∧
    (SemanticMemory.init 2000 100 10 5 defaultTokenCounter).get_prompt_context none = none ∧
    (none : Option String) ≠ some "" := by
  exact ⟨rfl, rfl, by decide⟩

/-- Claim C8 as amended: `get_prompt_context` renders one
`"Role: content\n"` line per retrieved item (role capitalised, content the
display content); FIFO returns the plain concatenation (empty string for no
items), while LRU and Semantic return `None` instead of a string when
`retrieve` yields no items. -/
theorem claim_C8_prompt_context_amended :
    (∀ (m : FIFOMemory) (q : Option String),
      m.get_prompt_context q = String.join ((m.retrieve none 5).map promptLine)) ∧
    (∀ (m : LRUMemory) (q : Option String) (now : Nat),
      (m.get_prompt_context q now).2 =
        if (m.retrieve none 5 now).2 = [] then none
        else some (String.join ((m.retrieve none 5 now).2.map promptLine))) ∧
    (∀ (m : SemanticMemory) (q : Option String),
      m.get_prompt_context q =
        if m.retrieve q none = [] then none
        else some (String.join ((m.retrieve q none).map promptLine))) := by
  refine ⟨?_, ?_, ?_⟩
  · intro m q
    rw [FIFOMemory.get_prompt_context, foldl_strAppend_eq_join]
    simp
  · intro m q now
    rw [LRUMemory.get_prompt_context]
    split
    · simp_all
    · rw [foldl_strAppend_eq_join]
      simp_all
  · intro m q
    rw [SemanticMemory.get_prompt_context]
    split
    · simp_all
    · rw [foldl_strAppend_eq_join]
      simp_all

theorem sumTok_cons (x : MemoryItem) (l : List MemoryItem) :
    sumTok (x :: l) = pyOrZero x.token_count + sumTok l := by
  simp [sumTok]

theorem sumTok_append (l₁ l₂ : List MemoryItem) :
    sumTok (l₁ ++ l₂) = sumTok l₁ + sumTok l₂ := by
  simp [sumTok]

/-- Post-conditions of the fuelled Semantic eviction loop, for any fuel at
least the storage length: the surviving storage is a suffix of the input's,
at least `min length recent_window` items survive, and on exit either both
budgets hold or at most `recent_window` items remain. -/
theorem sem_manageAux_props :
    ∀ (fuel : Nat) (m : SemanticMemory), m.storage.length ≤ fuel →
      (SemanticMemory.manageAux fuel m).storage.IsSuffix m.storage ∧
      min m.storage.length m.recent_window ≤
        (SemanticMemory.manageAux fuel m).storage.length ∧
      (((SemanticMemory.manageAux fuel m).current_total_tokens ≤ (m.max_tokens : Int) ∧
        (SemanticMemory.manageAux fuel m).storage.length ≤ m.max_items) ∨
        (SemanticMemory.manageAux fuel m).storage.length ≤ m.recent_window)
  | 0, m, hlen => by
    have hs : m.storage = [] := List.length_eq_zero.mp (Nat.le_zero.mp hlen)
    exact ⟨List.suffix_refl _, Nat.min_le_left _ _,
      Or.inr (by simp [SemanticMemory.manageAux, hs])⟩
  | fuel + 1, m, hlen => by
    obtain ⟨storage, maxT, maxI, window, topk, total, sp, tf, df, td, tc, lq⟩ := m
    rw [SemanticMemory.manageAux]
    dsimp only at hlen ⊢
    split
    case isTrue hcond =>
      rcases storage with _ | ⟨removed, rest⟩
      · exact ⟨List.suffix_refl _, Nat.min_le_left _ _, Or.inr (by simp)⟩
      · dsimp only at hcond ⊢
        have hw : window < rest.length + 1 := by simpa using hcond.2
        have hr : rest.length ≤ fuel := by simpa using hlen
        obtain ⟨ih1, ih2, ih3⟩ := sem_manageAux_props fuel
          { storage := rest, max_tokens := maxT, max_items := maxI,
            recent_window := window, semantic_top_k := topk,
            current_total_tokens := total - pyOrZero removed.token_count,
            system_prompt := sp, tf_cache := dictDel tf removed.id,
            doc_freq := df, total_docs := td, token_counter := tc,
            last_query := lq } hr
        exact ⟨ih1.trans (List.suffix_cons removed rest),
          by dsimp only at ih2; simp only [List.length_cons]; omega,
          by exact ih3⟩
    case isFalse hcond =>
      refine ⟨List.suffix_refl _, Nat.min_le_left _ _, ?_⟩
      dsimp only at hcond ⊢
      by_cases hwin : storage.length ≤ window
      · exact Or.inr hwin
      · refine Or.inl ⟨?_, ?_⟩ <;> omega

/-- Claim C4: Semantic constraint enforcement, run after every add, never
removes any of the `recent_window` most recently appended items (the result
is a suffix of the pre-enforcement storage keeping at least
`min length recent_window` items) and always terminates (the embedded loop
is a total function whose `storage.length` fuel bounds its iterations);
afterwards either both budgets hold or at most `recent_window` items remain.
The token total can stay above `max_tokens`: the store `semC4state`
(`max_tokens = 1`, `recent_window = 2`, two 12-token items) ends every add
with total 24. -/
theorem claim_C4_semantic_enforcement :
    (∀ (m : SemanticMemory) (item : MemoryItem),
      (m.add item).storage.IsSuffix (m.add_to_storage item).storage ∧
      min (m.add_to_storage item).storage.length m.recent_window ≤
        (m.add item).storage.length ∧
      (((m.add item).current_total_tokens ≤ (m.max_tokens : Int) ∧
        (m.add item).storage.length ≤ m.max_items) ∨
        (m.add item).storage.length ≤ m.recent_window)) ∧
    semC4state.current_total_tokens > (semC4state.max_tokens : Int) := by
  refine ⟨?_, by decide⟩
  intro m item
  exact sem_manageAux_props (m.add_to_storage item).storage.length
    (m.add_to_storage item) (Nat.le_refl _)

/-- Post-conditions of the fuelled FIFO eviction loop: token accounting is
preserved and on exit both budgets hold. -/
theorem fifo_manageAux_inv :
    ∀ (fuel : Nat) (m : FIFOMemory), m.storage.length ≤ fuel →
      m.current_total_tokens = sumTok m.storage →
      (FIFOMemory.manageAux fuel m).current_total_tokens =
        sumTok (FIFOMemory.manageAux fuel m).storage ∧
      (FIFOMemory.manageAux fuel m).current_total_tokens ≤ (m.max_tokens : Int) ∧
      (FIFOMemory.manageAux fuel m).storage.length ≤ m.max_items
  | 0, m, hlen, hacc => by
    have hs : m.storage = [] := List.length_eq_zero.mp (Nat.le_zero.mp hlen)
    have h0 : m.current_total_tokens = 0 := by simp [hacc, hs, sumTok]
    refine ⟨hacc, ?_, ?_⟩ <;> simp [FIFOMemory.manageAux, hs, h0]
  | fuel + 1, m, hlen, hacc => by
    obtain ⟨storage, maxT, maxI, total, sp, tc⟩ := m
    rw [FIFOMemory.manageAux]
    dsimp only at hlen hacc ⊢
    split
    case isTrue hcond =>
      rcases storage with _ | ⟨removed, rest⟩
      · have h0 : total = 0 := by simpa [sumTok] using hacc
        dsimp only
        refine ⟨hacc, ?_, ?_⟩ <;> simp [h0]
      · dsimp only at hcond ⊢
        have hr : rest.length ≤ fuel := by simpa using hlen
        have hacc' : total - pyOrZero removed.token_count = sumTok rest := by
          rw [hacc, sumTok_cons]; ring
        exact fifo_manageAux_inv fuel
          { storage := rest, max_tokens := maxT, max_items := maxI,
            current_total_tokens := total - pyOrZero removed.token_count,
            system_prompt := sp, token_counter := tc } hr hacc'
    case isFalse hcond =>
      dsimp only at hcond ⊢
      refine ⟨hacc, ?_, ?_⟩ <;> omega

/-- One FIFO `add` preserves token accounting and establishes both budget
bounds. -/
theorem fifo_add_inv (m : FIFOMemory) (item : MemoryItem)
    (hacc : m.current_total_tokens = sumTok m.storage) :
    (m.add item).current_total_tokens = sumTok (m.add item).storage ∧
    (m.add item).current_total_tokens ≤ (m.max_tokens : Int) ∧
    (m.add item).storage.length ≤ m.max_items := by
  have hacc' : (m.add_to_storage item).current_total_tokens =
      sumTok (m.add_to_storage item).storage := by
    cases h : item.token_count <;>
      simp [FIFOMemory.add_to_storage, h, sumTok_append, hacc, sumTok, pyOrZero_some]
  exact fifo_manageAux_inv (m.add_to_storage item).storage.length
    (m.add_to_storage item) (Nat.le_refl _) hacc'

/-- The FIFO eviction loop never changes the configured capacities. -/
theorem fifo_manageAux_fields :
    ∀ (fuel : Nat) (m : FIFOMemory),
      (FIFOMemory.manageAux fuel m).max_tokens = m.max_tokens ∧
      (FIFOMemory.manageAux fuel m).max_items = m.max_items
  | 0, _ => ⟨rfl, rfl⟩
  | fuel + 1, m => by
    obtain ⟨storage, maxT, maxI, total, sp, tc⟩ := m
    rw [FIFOMemory.manageAux]
    dsimp only
    split
    · rcases storage with _ | ⟨removed, rest⟩
      · exact ⟨rfl, rfl⟩
      · exact fifo_manageAux_fields fuel _
    · exact ⟨rfl, rfl⟩

theorem fifo_add_fields (m : FIFOMemory) (item : MemoryItem) :
    (m.add item).max_tokens = m.max_tokens ∧ (m.add item).max_items = m.max_items :=
  fifo_manageAux_fields (m.add_to_storage item).storage.length (m.add_to_storage item)

/-- Folding FIFO `add` over any item sequence keeps the token accounting,
keeps both budget bounds, and never changes the capacities. -/
theorem fifo_fold_inv :
    ∀ (items : List MemoryItem) (s : FIFOMemory),
      s.current_total_tokens = sumTok s.storage →
      s.current_total_tokens ≤ (s.max_tokens : Int) →
      s.storage.length ≤ s.max_items →
      (items.foldl FIFOMemory.add s).current_total_tokens =
        sumTok (items.foldl FIFOMemory.add s).storage ∧
      (items.foldl FIFOMemory.add s).current_total_tokens ≤
        ((items.foldl FIFOMemory.add s).max_tokens : Int) ∧
      (items.foldl FIFOMemory.add s).storage.length ≤
        (items.foldl FIFOMemory.add s).max_items ∧
      (items.foldl FIFOMemory.add s).max_tokens = s.max_tokens ∧
      (items.foldl FIFOMemory.add s).max_items = s.max_items
  | [], s => fun h1 h2 h3 => ⟨h1, h2, h3, rfl, rfl⟩
  | it :: items, s => fun h1 _ _ => by
    have ha := fifo_add_inv s it h1
    have hf := fifo_add_fields s it
    have hrec := fifo_fold_inv items (s.add it) ha.1
      (by rw [hf.1]; exact ha.2.1) (by rw [hf.2]; exact ha.2.2)
    simp only [List.foldl_cons]
    exact ⟨hrec.1, hrec.2.1, hrec.2.2.1,
      by rw [hrec.2.2.2.1, hf.1], by rw [hrec.2.2.2.2, hf.2]⟩

/-- Specification of Python's `min(x :: xs, key=key)`: it returns the first
element attaining the minimal key — every element before it in the list has a
strictly larger key, and no element has a smaller one. -/
theorem pyMinBy_spec (key : α → Nat) :
    ∀ (xs : List α) (x : α),
      ∃ pre post, x :: xs = pre ++ pyMinBy key x xs :: post ∧
        (∀ y ∈ pre, key (pyMinBy key x xs) < key y) ∧
        (∀ y ∈ x :: xs, key (pyMinBy key x xs) ≤ key y)
  | [], x => ⟨[], [], rfl, by simp, by simp [pyMinBy]⟩
  | y :: ys, x => by
    by_cases hk : key y < key x
    · have hstep : pyMinBy key x (y :: ys) = pyMinBy key y ys := by
        simp [pyMinBy, hk]
      obtain ⟨pre, post, hdec, hpre, hmin⟩ := pyMinBy_spec key ys y
      rw [hstep]
      refine ⟨x :: pre, post, ?_, ?_, ?_⟩
      · simpa using congrArg (List.cons x) hdec
      · intro z hz
        rcases List.mem_cons.mp hz with rfl | hz'
        · exact lt_of_le_of_lt (hmin y (by simp)) hk
        · exact hpre z hz'
      · intro z hz
        rcases List.mem_cons.mp hz with rfl | hz'
        · exact le_of_lt (lt_of_le_of_lt (hmin y (by simp)) hk)
        · exact hmin z hz'
    · have hstep : pyMinBy key x (y :: ys) = pyMinBy key x ys := by
        simp [pyMinBy, hk]
      have hxy : key x ≤ key y := Nat.le_of_not_lt hk
      obtain ⟨pre, post, hdec, hpre, hmin⟩ := pyMinBy_spec key ys x
      rw [hstep]
      rcases pre with _ | ⟨p, pre'⟩
      · simp only [List.nil_append, List.cons.injEq] at hdec
        obtain ⟨hx, hys⟩ := hdec
        refine ⟨[], y :: ys, ?_, by simp, ?_⟩
        · simp [← hx]
        · intro z hz
          rcases List.mem_cons.mp hz with rfl | hz'
          · rw [← hx]
          · rcases List.mem_cons.mp hz' with rfl | hz''
            · rw [← hx]; exact hxy
            · exact hmin z (by simp [hz''])
      · simp only [List.cons_append, List.cons.injEq] at hdec
        obtain ⟨hpx, hys⟩ := hdec
        have hminx : key (pyMinBy key x ys) < key x := by
          have := hpre p (by simp)
          rwa [← hpx] at this
        refine ⟨x :: y :: pre', post, ?_, ?_, ?_⟩
        · conv_lhs => rw [hys]
          simp
        · intro z hz
          rcases List.mem_cons.mp hz with rfl | hz'
          · exact hminx
          · rcases List.mem_cons.mp hz' with rfl | hz''
            · exact lt_of_lt_of_le hminx hxy
            · exact hpre z (by simp [hz''])
        · intro z hz
          rcases List.mem_cons.mp hz with rfl | hz'
          · exact le_of_lt hminx
          · rcases List.mem_cons.mp hz' with rfl | hz''
            · exact le_of_lt (lt_of_lt_of_le hminx hxy)
            · exact hmin z (by simp [hz''])

/-- On a non-empty LRU storage the victim exists and is stored. -/
theorem lruVictim_mem (m : LRUMemory) (h : m.storage ≠ []) :
    ∃ v, m.lruVictim = some v ∧ v ∈ m.storage := by
  rcases hs : m.storage with _ | ⟨z, zs⟩
  · exact absurd hs h
  · obtain ⟨pre, post, hdec, _, _⟩ :=
      pyMinBy_spec (fun it => dictGet m.access_times it.id 0) zs z
    refine ⟨pyMinBy (fun it => dictGet m.access_times it.id 0) z zs, ?_, ?_⟩
    · simp [LRUMemory.lruVictim, hs]
    · rw [hdec]
      exact List.mem_append.mpr (Or.inr (by simp))

theorem lru_evictStep_eq (m : LRUMemory) (v : MemoryItem)
    (hv : m.lruVictim = some v) :
    m.evictStep = lruErasedState m v := by
  simp [LRUMemory.evictStep, hv, lruErasedState]

/-- Post-conditions of the fuelled LRU eviction loop: token accounting is
preserved and on exit both budgets hold. -/
theorem lru_manageAux_inv :
    ∀ (fuel : Nat) (m : LRUMemory), m.storage.length ≤ fuel →
      m.current_total_tokens = sumTok m.storage →
      (LRUMemory.manageAux fuel m).current_total_tokens =
        sumTok (LRUMemory.manageAux fuel m).storage ∧
      (LRUMemory.manageAux fuel m).current_total_tokens ≤ (m.max_tokens : Int) ∧
      (LRUMemory.manageAux fuel m).storage.length ≤ m.max_items
  | 0, m, hlen, hacc => by
    have hs : m.storage = [] := List.length_eq_zero.mp (Nat.le_zero.mp hlen)
    have h0 : m.current_total_tokens = 0 := by simp [hacc, hs, sumTok]
    refine ⟨hacc, ?_, ?_⟩ <;> simp [LRUMemory.manageAux, hs, h0]
  | fuel + 1, m, hlen, hacc => by
    rw [LRUMemory.manageAux]
    split
    case isTrue hcond =>
      obtain ⟨v, hv, hvm⟩ := lruVictim_mem m hcond.2
      rw [lru_evictStep_eq m v hv]
      have hperm : m.storage.Perm (v :: m.storage.erase v) :=
        List.perm_cons_erase hvm
      have hsum : sumTok m.storage =
          pyOrZero v.token_count + sumTok (m.storage.erase v) := by
        have := (hperm.map (fun it => pyOrZero it.token_count)).sum_eq
        simpa [sumTok] using this
      have hne : m.storage.length ≠ 0 := by
        intro h0; exact hcond.2 (List.length_eq_zero.mp h0)
      have hlen' : (m.storage.erase v).length ≤ fuel := by
        rw [List.length_erase_of_mem hvm]; omega
      have hacc' : m.current_total_tokens - pyOrZero v.token_count =
          sumTok (m.storage.erase v) := by rw [hacc, hsum]; ring
      have hrec := lru_manageAux_inv fuel (lruErasedState m v)
        (by simpa [lruErasedState] using hlen')
        (by simpa [lruErasedState] using hacc')
      simpa [lruErasedState] using hrec
    case isFalse hcond =>
      rw [not_and_or] at hcond
      rcases hcond with hover | hne
      · refine ⟨hacc, ?_, ?_⟩ <;> omega
      · have hs : m.storage = [] := not_not.mp hne
        have h0 : m.current_total_tokens = 0 := by simp [hacc, hs, sumTok]
        refine ⟨hacc, ?_, ?_⟩ <;> simp [hs, h0]

/-- The LRU eviction loop never changes the configured capacities. -/
theorem lru_manageAux_fields :
    ∀ (fuel : Nat) (m : LRUMemory),
      (LRUMemory.manageAux fuel m).max_tokens = m.max_tokens ∧
      (LRUMemory.manageAux fuel m).max_items = m.max_items
  | 0, _ => ⟨rfl, rfl⟩
  | fuel + 1, m => by
    rw [LRUMemory.manageAux]
    split
    · rcases lruVictim_mem m (by tauto) with ⟨v, hv, _⟩
      rw [lru_evictStep_eq m v hv]
      exact lru_manageAux_fields fuel _
    · exact ⟨rfl, rfl⟩

theorem lru_add_fields (m : LRUMemory) (item : MemoryItem) (now : Nat) :
    (m.add item now).max_tokens = m.max_tokens ∧
    (m.add item now).max_items = m.max_items :=
  lru_manageAux_fields (m.add_to_storage item now).storage.length
    (m.add_to_storage item now)

/-- One LRU `add` preserves token accounting and establishes both budget
bounds. -/
theorem lru_add_inv (m : LRUMemory) (item : MemoryItem) (now : Nat)
    (hacc : m.current_total_tokens = sumTok m.storage) :
    (m.add item now).current_total_tokens = sumTok (m.add item now).storage ∧
    (m.add item now).current_total_tokens ≤ (m.max_tokens : Int) ∧
    (m.add item now).storage.length ≤ m.max_items := by
  have hacc' : (m.add_to_storage item now).current_total_tokens =
      sumTok (m.add_to_storage item now).storage := by
    cases h : item.token_count <;>
      simp [LRUMemory.add_to_storage, h, sumTok_append, hacc, sumTok, pyOrZero_some]
  exact lru_manageAux_inv (m.add_to_storage item now).storage.length
    (m.add_to_storage item now) (Nat.le_refl _) hacc'

/-- Folding LRU `add` over any `(item, time)` sequence keeps the token
accounting, keeps both budget bounds, and never changes the capacities. -/
theorem lru_fold_inv :
    ∀ (steps : List (MemoryItem × Nat)) (s : LRUMemory),
      s.current_total_tokens = sumTok s.storage →
      s.current_total_tokens ≤ (s.max_tokens : Int) →
      s.storage.length ≤ s.max_items →
      (steps.foldl (fun m p => LRUMemory.add m p.1 p.2) s).current_total_tokens =
        sumTok (steps.foldl (fun m p => LRUMemory.add m p.1 p.2) s).storage ∧
      (steps.foldl (fun m p => LRUMemory.add m p.1 p.2) s).current_total_tokens ≤
        ((steps.foldl (fun m p => LRUMemory.add m p.1 p.2) s).max_tokens : Int) ∧
      (steps.foldl (fun m p => LRUMemory.add m p.1 p.2) s).storage.length ≤
        (steps.foldl (fun m p => LRUMemory.add m p.1 p.2) s).max_items ∧
      (steps.foldl (fun m p => LRUMemory.add m p.1 p.2) s).max_tokens = s.max_tokens ∧
      (steps.foldl (fun m p => LRUMemory.add m p.1 p.2) s).max_items = s.max_items
  | [], s => fun h1 h2 h3 => ⟨h1, h2, h3, rfl, rfl⟩
  | p :: steps, s => fun h1 _ _ => by
    have ha := lru_add_inv s p.1 p.2 h1
    have hf := lru_add_fields s p.1 p.2
    have hrec := lru_fold_inv steps (s.add p.1 p.2) ha.1
      (by rw [hf.1]; exact ha.2.1) (by rw [hf.2]; exact ha.2.2)
    simp only [List.foldl_cons]
    exact ⟨hrec.1, hrec.2.1, hrec.2.2.1,
      by rw [hrec.2.2.2.1, hf.1], by rw [hrec.2.2.2.2, hf.2]⟩

/-- Claim C2: for FIFO and LRU, after every `add` of any sequence of
structurally valid items, either the token total and item count are both
within budget or storage holds exactly one item.  (The proof establishes the
stronger fact that the left disjunct always holds: the loop condition
`... and self.storage` lets the final sole item be evicted as well, so
enforcement always restores both bounds.) -/
theorem claim_C2_budget_convergence :
    (∀ (maxT maxI : Nat) (tc : String → Int) (items : List MemoryItem),
      ((items.foldl FIFOMemory.add (FIFOMemory.init maxT maxI tc)).current_total_tokens
          ≤ (maxT : Int) ∧
        (items.foldl FIFOMemory.add (FIFOMemory.init maxT maxI tc)).storage.length
          ≤ maxI) ∨
      (items.foldl FIFOMemory.add (FIFOMemory.init maxT maxI tc)).storage.length = 1) ∧
    (∀ (maxT maxI : Nat) (tc : String → Int) (steps : List (MemoryItem × Nat)),
      ((steps.foldl (fun m p => LRUMemory.add m p.1 p.2)
            (LRUMemory.init maxT maxI tc)).current_total_tokens ≤ (maxT : Int) ∧
        (steps.foldl (fun m p => LRUMemory.add m p.1 p.2)
            (LRUMemory.init maxT maxI tc)).storage.length ≤ maxI) ∨
      (steps.foldl (fun m p => LRUMemory.add m p.1 p.2)
          (LRUMemory.init maxT maxI tc)).storage.length = 1) := by
  constructor
  · intro maxT maxI tc items
    have h := fifo_fold_inv items (FIFOMemory.init maxT maxI tc)
      (by simp [FIFOMemory.init, sumTok]) (by simp [FIFOMemory.init]) (by simp [FIFOMemory.init])
    refine Or.inl ⟨?_, ?_⟩
    · have := h.2.1; rwa [h.2.2.2.1] at this
    · have := h.2.2.1; rwa [h.2.2.2.2] at this
  · intro maxT maxI tc steps
    have h := lru_fold_inv steps (LRUMemory.init maxT maxI tc)
      (by simp [LRUMemory.init, sumTok]) (by simp [LRUMemory.init]) (by simp [LRUMemory.init])
    refine Or.inl ⟨?_, ?_⟩
    · have := h.2.1; rwa [h.2.2.2.1] at this
    · have := h.2.2.1; rwa [h.2.2.2.2] at this

/-- Counterexample to claim C7 as stated: with two stored items whose access
times are equal (two appends inside the same wall-clock second) and whose
random id suffixes are out of storage order, enforcement removes the first
stored item (`Python min` keeps the current best on ties), which does not
have the earliest id among the tied items. -/
theorem claim_C7_counterexample :
    lruC7cex.lruVictim = some lruC7itemB ∧
    lruC7itemA ∈ lruC7cex.storage ∧
    dictGet lruC7cex.access_times lruC7itemA.id 0 =
      dictGet lruC7cex.access_times lruC7itemB.id 0 ∧
    lruC7itemA.id.data < lruC7itemB.id.data ∧
    lruC7itemA.id ≠ lruC7itemB.id ∧
    lruC7cex.evictStep.storage = [lruC7itemA] := by
  decide

/-- Claim C7 as amended: each iteration of LRU constraint enforcement removes
the first stored item whose recorded access time is minimal (ties among equal
access times are broken by earliest storage position, not by id), subtracts
its cached token count and deletes its access-time entry; whenever stored
ids strictly increase in storage order — the data model's intent for
timestamp-derived ids — the removed item also has the earliest id among
those with minimal access time. -/
theorem claim_C7_lru_eviction (m : LRUMemory) (h : m.storage ≠ []) :
    ∃ v pre post,
      m.lruVictim = some v ∧
      m.storage = pre ++ v :: post ∧
      (∀ x ∈ pre, dictGet m.access_times v.id 0 < dictGet m.access_times x.id 0) ∧
      (∀ x ∈ m.storage, dictGet m.access_times v.id 0 ≤ dictGet m.access_times x.id 0) ∧
      m.evictStep = lruErasedState m v ∧
      ((m.current_total_tokens > (m.max_tokens : Int) ∨
          m.storage.length > m.max_items) →
        m.manage_memory_constraints =
          LRUMemory.manageAux (m.storage.length - 1) m.evictStep) ∧
      (m.storage.Pairwise (fun a b => a.id < b.id) →
        ∀ x ∈ m.storage,
          dictGet m.access_times x.id 0 = dictGet m.access_times v.id 0 →
          v.id ≤ x.id) := by
  rcases hs : m.storage with _ | ⟨z, zs⟩
  · exact absurd hs h
  obtain ⟨pre, post, hdec, hpre, hmin⟩ :=
    pyMinBy_spec (fun it => dictGet m.access_times it.id 0) zs z
  refine ⟨pyMinBy (fun it => dictGet m.access_times it.id 0) z zs, pre, post,
    ?_, hdec, hpre, hmin, lru_evictStep_eq m _ ?_, ?_, ?_⟩
  · simp [LRUMemory.lruVictim, hs]
  · simp [LRUMemory.lruVictim, hs]
  · intro hover
    rw [LRUMemory.manage_memory_constraints, hs, List.length_cons,
      LRUMemory.manageAux]
    rw [if_pos ⟨by rw [hs]; exact hover, by rw [hs]; exact List.cons_ne_nil z zs⟩]
    simp
  · intro hpw x hx hxv
    rw [hdec] at hpw hx
    rcases List.mem_append.mp hx with hx' | hx'
    · exact absurd hxv (hpre x hx').ne'
    · rcases List.mem_cons.mp hx' with rfl | hx''
      · exact le_refl _
      · have := (List.pairwise_append.mp hpw).2.1
        exact le_of_lt ((List.pairwise_cons.mp this).1 x hx'')

/-- Witness for the amended C7 at a two-item store with distinct access
times. -/
theorem claim_C7_lru_eviction_witness :
    lruC7wst.storage ≠ [] ∧
    (∃ v pre post,
      lruC7wst.lruVictim = some v ∧
      lruC7wst.storage = pre ++ v :: post ∧
      (∀ x ∈ pre,
        dictGet lruC7wst.access_times v.id 0 < dictGet lruC7wst.access_times x.id 0) ∧
      (∀ x ∈ lruC7wst.storage,
        dictGet lruC7wst.access_times v.id 0 ≤ dictGet lruC7wst.access_times x.id 0) ∧
      lruC7wst.evictStep = lruErasedState lruC7wst v ∧
      ((lruC7wst.current_total_tokens > (lruC7wst.max_tokens : Int) ∨
          lruC7wst.storage.length > lruC7wst.max_items) →
        lruC7wst.manage_memory_constraints =
          LRUMemory.manageAux (lruC7wst.storage.length - 1) lruC7wst.evictStep) ∧
      (lruC7wst.storage.Pairwise (fun a b => a.id < b.id) →
        ∀ x ∈ lruC7wst.storage,
          dictGet lruC7wst.access_times x.id 0 = dictGet lruC7wst.access_times v.id 0 →
          v.id ≤ x.id)) :=
  ⟨by decide, claim_C7_lru_eviction lruC7wst (by decide)⟩

theorem mem_insertDescStable (key : α → ℚ) (x a : α) :
    ∀ l : List α, a ∈ insertDescStable key x l ↔ a = x ∨ a ∈ l
  | [] => by simp [insertDescStable]
  | y :: ys => by
    rw [insertDescStable]
    split
    · rw [List.mem_cons, mem_insertDescStable key x a ys, List.mem_cons]
      tauto
    · rw [List.mem_cons, List.mem_cons]

theorem mem_pySortDescBy (key : α → ℚ) (a : α) :
    ∀ l : List α, a ∈ pySortDescBy key l ↔ a ∈ l
  | [] => Iff.rfl
  | x :: l => by
    show a ∈ insertDescStable key x (pySortDescBy key l) ↔ _
    rw [mem_insertDescStable, mem_pySortDescBy key a l, List.mem_cons]

theorem common_toFinset (qtf dtf : List String) :
    (qtf.dedup.filter (fun t => dtf.contains t)).toFinset =
      qtf.toFinset ∩ dtf.toFinset := by
  ext t
  simp [List.mem_filter, List.mem_dedup]

/-- Claim C6: the similarity of a candidate against a query is the sum, over
every term present in both counters, of
`query_tf[term] * doc_tf[term] * (1 + total_docs / doc_freq[term])` (stated
under the invariant, maintained by indexing, that every term of a cached
document counter has been counted in `doc_freq`); a candidate sharing no
term with the query scores exactly zero; and every item selected by the
relevance stage of `retrieve` has strictly positive score. -/
theorem claim_C6_similarity (m : SemanticMemory) (qtf dtf : List String)
    (hdf : ∀ t ∈ dtf, m.doc_freq.count t ≠ 0) :
    m.compute_similarity qtf dtf =
      Finset.sum (qtf.toFinset ∩ dtf.toFinset) (fun t =>
        (qtf.count t : ℚ) * (dtf.count t : ℚ) *
          (1 + (m.total_docs : ℚ) / (m.doc_freq.count t : ℚ))) ∧
    ((∀ t, t ∉ qtf ∨ t ∉ dtf) → m.compute_similarity qtf dtf = 0) ∧
    (∀ (older : List MemoryItem) (k : Nat) (item : MemoryItem),
      item ∈ m.relevantOlder qtf older k →
      0 < m.compute_similarity qtf (dictGet m.tf_cache item.id [])) := by
  refine ⟨?_, ?_, ?_⟩
  · rw [SemanticMemory.compute_similarity]
    by_cases hq : qtf = []
    · rw [if_pos (Or.inl hq)]; simp [hq]
    by_cases hd : dtf = []
    · rw [if_pos (Or.inr hd)]; simp [hd]
    rw [if_neg (by simp [hq, hd])]
    try dsimp only
    by_cases hc : qtf.dedup.filter (fun t => dtf.contains t) = []
    · rw [if_pos hc, ← common_toFinset qtf dtf, hc]
      simp
    · rw [if_neg hc, foldl_add_eq_sum (m.simTermWeight qtf dtf) _ 0, zero_add,
        ← common_toFinset qtf dtf,
        List.sum_toFinset _ ((List.nodup_dedup qtf).filter _)]
      refine congrArg List.sum (List.map_congr_left ?_)
      intro t ht
      obtain ⟨htq, htd⟩ := List.mem_filter.mp ht
      have htd' : t ∈ dtf := by simpa using htd
      have hne : m.doc_freq.count t ≠ 0 := hdf t htd'
      simp [SemanticMemory.simTermWeight, hne, Nat.pos_of_ne_zero hne]
  · intro hno
    rw [SemanticMemory.compute_similarity]
    by_cases hq : qtf = []
    · rw [if_pos (Or.inl hq)]
    by_cases hd : dtf = []
    · rw [if_pos (Or.inr hd)]
    rw [if_neg (by simp [hq, hd])]
    try dsimp only
    have hc : qtf.dedup.filter (fun t => dtf.contains t) = [] := by
      rw [List.filter_eq_nil_iff]
      intro t ht
      rcases hno t with h1 | h2
      · exact absurd (List.mem_dedup.mp ht) h1
      · simp [h2]
    rw [if_pos hc]
  · intro older k item hmem
    rw [SemanticMemory.relevantOlder] at hmem
    try dsimp only at hmem
    obtain ⟨si, hsi, hsi2⟩ := List.mem_map.mp hmem
    obtain ⟨hsitk, hsipos⟩ := List.mem_filter.mp hsi
    have hsi3 := List.mem_of_mem_take hsitk
    rw [mem_pySortDescBy] at hsi3
    obtain ⟨it, _, heq⟩ := List.mem_map.mp hsi3
    have h1 : 0 < si.1 := of_decide_eq_true hsipos
    rw [← heq] at h1 hsi2
    dsimp only at h1 hsi2
    rwa [hsi2] at h1

/-- Witness for C6 at a store with one indexed document and a one-term
query counter. -/
theorem claim_C6_similarity_witness :
    (∀ t ∈ (["thermostat"] : List String), semC6state.doc_freq.count t ≠ 0) ∧
    (semC6state.compute_similarity ["thermostat"] ["thermostat"] =
      Finset.sum ((["thermostat"] : List String).toFinset ∩
          (["thermostat"] : List String).toFinset) (fun t =>
        ((["thermostat"] : List String).count t : ℚ) *
          ((["thermostat"] : List String).count t : ℚ) *
          (1 + (semC6state.total_docs : ℚ) / (semC6state.doc_freq.count t : ℚ))) ∧
    ((∀ t, t ∉ (["thermostat"] : List String) ∨ t ∉ (["thermostat"] : List String)) →
      semC6state.compute_similarity ["thermostat"] ["thermostat"] = 0) ∧
    (∀ (older : List MemoryItem) (k : Nat) (item : MemoryItem),
      item ∈ semC6state.relevantOlder ["thermostat"] older k →
      0 < semC6state.compute_similarity ["thermostat"]
        (dictGet semC6state.tf_cache item.id []))) :=
  ⟨by decide, claim_C6_similarity semC6state ["thermostat"] ["thermostat"] (by decide)⟩

theorem compute_similarity_nil_query (m : SemanticMemory) (dtf : List String) :
    m.compute_similarity [] dtf = 0 := by
  simp [SemanticMemory.compute_similarity]

/-- With an empty query counter every candidate scores zero, so the
relevance stage selects nothing. -/
theorem relevantOlder_nil_query (m : SemanticMemory) (older : List MemoryItem)
    (k : Nat) : m.relevantOlder [] older k = [] := by
  rw [SemanticMemory.relevantOlder]
  try dsimp only
  have hfil : ((pySortDescBy (fun si => si.1)
      (older.map fun it =>
        (m.compute_similarity [] (dictGet m.tf_cache it.id []), it))).take k).filter
      (fun si => decide (0 < si.1)) = [] := by
    rw [List.filter_eq_nil_iff]
    intro si hsi
    have hsi' := List.mem_of_mem_take hsi
    rw [mem_pySortDescBy] at hsi'
    obtain ⟨it, _, heq⟩ := List.mem_map.mp hsi'
    have h0 : si.1 = (0 : ℚ) := by
      rw [← heq]
      exact compute_similarity_nil_query m (dictGet m.tf_cache it.id [])
    simp [h0]
  rw [hfil]
  rfl

theorem pySlice_append (w : Nat) (l : List α) :
    pySliceDropLast w l ++ pySliceLast w l = l := by
  by_cases h : w = 0
  · simp [pySliceDropLast, pySliceLast, h]
  · simp [pySliceDropLast, pySliceLast, h, List.take_append_drop]

/-- Counterexample to claim C10 as stated.  First, with `recent_window = 0`
and one stored item, the query `"123"` (non-empty, no alphabetic token
longer than 2) makes `retrieve` return the whole storage — one item instead
of the `recent_window = 0` most recent — because the Python slice
`storage[:-0]` is empty, which triggers the return-everything branch.
Second, with `recent_window = 1` and the same turn record appended twice,
`retrieve` returns both stored occurrences (the older one is structurally
equal to the window item, so `item in recent_items` admits it) instead of
exactly the one most recent item. -/
theorem claim_C10_counterexample :
    (semC10w0.storage.length > semC10w0.recent_window ∧
      semC10w0.recent_window = 0 ∧
      (semC10w0.retrieve (some "123") none).map MemoryItem.id = ["X"] ∧
      (semC10w0.retrieve (some "123") none).length = 1) ∧
    (semC10dup.storage.length > semC10dup.recent_window ∧
      semC10dup.recent_window = 1 ∧
      (semC10dup.retrieve (some "123") none).map MemoryItem.id = ["X", "X"] ∧
      semC10dup.retrieve (some "123") none ≠
        pySliceLast semC10dup.recent_window semC10dup.storage) := by
  decide

/-- Claim C10 as amended: whenever `recent_window ≥ 1`, the stored count
exceeds `recent_window`, the effective query (the argument, else the cached
last user-turn content) is a non-empty string whose tokenisation is empty
(no alphabetic token longer than 2 characters), and no stored item outside
the recency window is structurally equal to an item inside it, `retrieve`
returns exactly the `recent_window` most recently appended items in
chronological order and excludes every older item. -/
theorem claim_C10_recency_only (m : SemanticMemory) (query : Option String)
    (k : Option Nat) (q : String)
    (hw : 1 ≤ m.recent_window)
    (hlen : m.recent_window < m.storage.length)
    (hq : pyStrOr query m.last_query = some q)
    (hne : q ≠ "")
    (htok : pyTokenize q = [])
    (hdisj : ∀ x ∈ pySliceDropLast m.recent_window m.storage,
      x ∉ pySliceLast m.recent_window m.storage) :
    m.retrieve query k = pySliceLast m.recent_window m.storage := by
  have holder : pySliceDropLast m.recent_window m.storage ≠ [] := by
    rw [pySliceDropLast, if_neg (by omega)]
    rw [Ne, List.take_eq_nil_iff]
    push_neg
    refine ⟨by omega, ?_⟩
    intro hnil
    rw [hnil] at hlen
    simp at hlen
  rw [SemanticMemory.retrieve.eq_def]
  try dsimp only
  rw [hq]
  rw [if_neg (by omega)]
  rw [if_neg (by simp [hne, holder])]
  rw [Option.getD_some, SemanticMemory.compute_tf, htok, relevantOlder_nil_query]
  simp only [List.map_nil]
  set r := pySliceLast m.recent_window m.storage with hr
  have hsplit : pySliceDropLast m.recent_window m.storage ++ r = m.storage :=
    pySlice_append m.recent_window m.storage
  conv_lhs => rw [← hsplit]
  rw [List.filter_append]
  have h1 : (pySliceDropLast m.recent_window m.storage).filter
      (fun item => ([] : List String).contains item.id || r.contains item) = [] := by
    rw [List.filter_eq_nil_iff]
    intro a ha
    simpa using hdisj a ha
  have h2 : r.filter
      (fun item => ([] : List String).contains item.id || r.contains item) = r := by
    rw [List.filter_eq_self]
    intro a ha
    simpa using ha
  rw [h1, h2, List.nil_append]

/-- Witness for the amended C10 at a two-item store with `recent_window = 1`
and the numeric query `"123"`. -/
theorem claim_C10_recency_only_witness :
    (1 ≤ semC10wst.recent_window) ∧
    (semC10wst.recent_window < semC10wst.storage.length) ∧
    (pyStrOr (some "123") semC10wst.last_query = some "123") ∧
    ("123" : String) ≠ "" ∧
    (pyTokenize "123" = []) ∧
    (∀ x ∈ pySliceDropLast semC10wst.recent_window semC10wst.storage,
      x ∉ pySliceLast semC10wst.recent_window semC10wst.storage) ∧
    semC10wst.retrieve (some "123") none =
      pySliceLast semC10wst.recent_window semC10wst.storage :=
  ⟨by decide, by decide, by decide, by decide, by decide, by decide,
    claim_C10_recency_only semC10wst (some "123") none "123" (by decide)
      (by decide) (by decide) (by decide) (by decide) (by decide)⟩
